import Mathlib

/-!
Verification of the maintainerbot repository: a shallow embedding in Lean 4 of
the bot task loop (`Bot.doTasks` / `Bot.Run`), the CLA checker task
(`CLAChecker.Do`, `CLAChecker.postStatus`, `CLAChecker.loadContributors`), the
congratulator task (`Congratulator.Do`) and the spreadsheet-backed contributor
fetcher (`getUsernames`, `SpreadsheetFetcher.LoadContributors`), together with
theorems settling the frozen claims about the natural-language specification.

Strings handled character-wise by the CSV layer are modelled as `List Char`;
`asciiToLower` models `strings.ToLower` and `trimSpace` models
`strings.TrimSpace` on the ASCII range used by the data. GitHub API calls are
modelled as environments of `Except`-valued functions, and each task produces an
explicit trace of the calls it issued, so that "exactly one status post" and
"zero further API calls" are statable.
-/

/-! ## CSV layer: `getUsernames` and `SpreadsheetFetcher.LoadContributors` -/

/-- Models `strings.ToLower` on one character (ASCII range, which covers the
data handled by the bot). -/
def asciiToLower (c : Char) : Char :=
  if 65 ≤ c.toNat ∧ c.toNat ≤ 90 then Char.ofNat (c.toNat + 32) else c

/-- Models `strings.ToLower` on a string. -/
def lowerStr (s : List Char) : List Char := s.map asciiToLower

/-- Executable prefix test: `isPrefixOfB p s` is true when `p` is a prefix of `s`. -/
def isPrefixOfB : List Char → List Char → Bool
  | [], _ => true
  | _ :: _, [] => false
  | a :: as, b :: bs => a = b && isPrefixOfB as bs

/-- Models `strings.Contains s sub`: `sub` occurs as a contiguous substring of
`s`. In particular `containsSub s [] = true`, as in Go. -/
def containsSub : List Char → List Char → Bool
  | [], sub => isPrefixOfB sub []
  | c :: t, sub => isPrefixOfB sub (c :: t) || containsSub t sub

/-- Models `unicode.IsSpace` on the ASCII whitespace characters recognised by
`strings.TrimSpace`. -/
def isSpaceB (c : Char) : Bool :=
  c = ' ' || c = '\t' || c = '\n' || c = '\x0b' || c = '\x0c' || c = '\r'

/-- Models `strings.TrimSpace`. -/
def trimSpace (s : List Char) : List Char :=
  ((s.dropWhile isSpaceB).reverse.dropWhile isSpaceB).reverse

/-- Shorthand turning a Lean string literal into the `List Char` the CSV layer
works on. -/
def s2c (s : String) : List Char := s.toList

/-- The column-search loop of `getUsernames`: `column := -1`; for each header
cell in order, if `strings.Contains(strings.ToLower(cell), lowerColumnName)`
then `column = i; break`. The accumulator `i` is the index of the first cell
still to be examined. -/
def findColumnAux : List (List Char) → List Char → Nat → Int
  | [], _, _ => -1
  | cell :: rest, name, i =>
    if containsSub (lowerStr cell) name then Int.ofNat i
    else findColumnAux rest name (i + 1)

/-- The error built by `fmt.Errorf("no column named '%s'; quitting", columnName)`. -/
def noColumnErr (columnName : List Char) : List Char :=
  s2c "no column named \x27" ++ columnName ++ s2c "\x27; quitting"

/-- The error of `csv.Reader.ReadAll` when a record does not have the same
number of fields as the header (`csv.ErrFieldCount`). -/
def fieldCountErr : List Char := s2c "wrong number of fields"

/-- Models `getUsernames` from `tasks/tasks.go` on a CSV already split into a
header record and the remaining records (the parsing proper is done by the
external `encoding/csv` package, which also enforces that every record has the
header's field count — modelled by the explicit length check, mirroring
`ReadAll`). The matched column's cells are trimmed and the non-empty ones
accumulated in order. -/
def getUsernames (header : List (List Char)) (rows : List (List (List Char)))
    (columnName : List Char) : Except (List Char) (List (List Char)) :=
  let lowerColumnName := lowerStr columnName
  let column : Int := findColumnAux header lowerColumnName 0
  if column = -1 then Except.error (noColumnErr columnName)
  else if rows.all (fun r => r.length = header.length) then
    Except.ok (rows.foldl (fun acc row =>
      let email := trimSpace (row.getD column.toNat [])
      if email = [] then acc else acc ++ [email]) [])
  else Except.error fieldCountErr

/-- Models the body of `SpreadsheetFetcher.LoadContributors` after the download
succeeded: the local `columnName` is defaulted to "GitHub Username" when the
configured name is empty, but — exactly as in the source — the call to
`getUsernames` passes the raw `s.ColumnName`, not the defaulted local. -/
def loadContributorsCSV (colName : List Char) (header : List (List Char))
    (rows : List (List (List Char))) : Except (List Char) (List (List Char)) :=
  let columnName := if colName = [] then s2c "GitHub Username" else colName
  getUsernames header rows colName

/-- Specification-side column resolution: index of the first header cell whose
lower-cased text contains the (lower-cased) column name as a substring. -/
def firstMatch (p : List Char → Bool) : List (List Char) → Option Nat
  | [] => none
  | c :: t => if p c then some 0 else (firstMatch p t).map (· + 1)

/-- Specification-side extraction: trimmed, non-empty cells of column `j`, in
row order, without deduplication. -/
def columnValues (j : Nat) : List (List (List Char)) → List (List Char)
  | [] => []
  | row :: rest =>
    let e := trimSpace (row.getD j [])
    if e = [] then columnValues j rest else e :: columnValues j rest

lemma findColumnAux_eq (header : List (List Char)) (name : List Char) :
    ∀ i, findColumnAux header name i =
      match firstMatch (fun c => containsSub (lowerStr c) name) header with
      | some j => Int.ofNat (i + j)
      | none => -1 := by
  induction header with
  | nil => intro i; simp [findColumnAux, firstMatch]
  | cons cell rest ih =>
    intro i
    by_cases h : containsSub (lowerStr cell) name = true
    · simp [findColumnAux, firstMatch, h]
    · simp only [findColumnAux, firstMatch, h, Bool.false_eq_true, if_false]
      rw [ih (i + 1)]
      cases hm : firstMatch (fun c => containsSub (lowerStr c) name) rest with
      | none => simp
      | some j =>
        have harith : i + 1 + j = i + (j + 1) := by omega
        simp [Option.map_some, harith]

lemma foldl_extract_eq (rows : List (List (List Char))) (j : Nat) :
    ∀ init : List (List Char),
      rows.foldl (fun acc row =>
        let email := trimSpace (row.getD j [])
        if email = [] then acc else acc ++ [email]) init
      = init ++ columnValues j rows := by
  induction rows with
  | nil => intro init; simp [columnValues]
  | cons row rest ih =>
    intro init
    simp only [List.foldl_cons, columnValues]
    by_cases h : trimSpace (row.getD j []) = []
    · simp only [h, if_true]
      exact ih init
    · simp only [h, if_false]
      rw [ih (init ++ [trimSpace (row.getD j [])])]
      simp

/-- Claim C5: if some header cell case-insensitively contains the configured
column name as a substring, `getUsernames` selects the first such column and
returns exactly the trimmed, non-empty cells of that column from the subsequent
(field-count-consistent) rows, in row order, without deduplication; if no
header cell matches, it returns the descriptive "no column named" error and no
partial result. -/
theorem claim_C5 (header : List (List Char)) (rows : List (List (List Char)))
    (columnName : List Char) :
    (∀ j, firstMatch (fun c => containsSub (lowerStr c) (lowerStr columnName)) header = some j →
      rows.all (fun r => r.length = header.length) = true →
      getUsernames header rows columnName = Except.ok (columnValues j rows))
    ∧ (firstMatch (fun c => containsSub (lowerStr c) (lowerStr columnName)) header = none →
      getUsernames header rows columnName = Except.error (noColumnErr columnName)) := by
  constructor
  · intro j hj hrect
    have h0 := findColumnAux_eq header (lowerStr columnName) 0
    rw [hj] at h0
    simp only [Nat.zero_add] at h0
    have hne : ¬ ((Int.ofNat j : Int) = -1) := by
      rw [Int.ofNat_eq_coe]; omega
    simp only [getUsernames, h0, hne, if_false, hrect, if_true]
    rw [foldl_extract_eq rows (Int.ofNat j).toNat []]
    simp
  · intro hnone
    have h0 := findColumnAux_eq header (lowerStr columnName) 0
    rw [hnone] at h0
    simp [getUsernames, h0]

/-- Header, rows and column name of the unit test in `tasks/example_test.go`. -/
def testHeader : List (List Char) :=
  [s2c "Name", s2c "Em", s2c "Address", s2c "Country", s2c "Phone Number",
   s2c "Github Username"]

/-- Data rows of the unit test CSV. -/
def testRows : List (List (List Char)) :=
  [[s2c "Kevin Burke", s2c "kevin@burke.services", s2c "123 Main St", s2c "USA",
    s2c "925-555-1234", s2c "kevinburke"],
   [s2c "Kevin Foo", s2c "anotheremail@burke.services", s2c "123 Main St", s2c "USA",
    s2c "925-555-1234", s2c "kevinburke_test"],
   [s2c "TestUser", s2c "test@example.com", s2c "123 Main St", s2c "USA",
    s2c "925-555-1234", s2c "test"]]

/-- Witness for claim C5, on the repository's own test CSV: the configured name
"github username" matches the last header column and yields the three
usernames; a header without any matching cell yields the descriptive error. -/
theorem claim_C5_witness :
    getUsernames testHeader testRows (s2c "github username")
      = Except.ok [s2c "kevinburke", s2c "kevinburke_test", s2c "test"]
    ∧ getUsernames [s2c "Name", s2c "Em"] testRows (s2c "github username")
      = Except.error (noColumnErr (s2c "github username")) := by
  constructor
  · have h := (claim_C5 testHeader testRows (s2c "github username")).1 5
      (by decide) (by decide)
    rw [h]; rfl
  · exact (claim_C5 [s2c "Name", s2c "Em"] testRows (s2c "github username")).2 (by decide)

/-- Claim C4 (code bug): with an empty `ColumnName`, `LoadContributors` computes
the defaulted name "GitHub Username" but passes the raw empty `s.ColumnName` to
`getUsernames`; the empty substring matches the first header cell, so on header
`Name,GitHub Username` with row `kevin,kevinburke` the code returns `[kevin]`,
while direct extraction with the default name returns `[kevinburke]` as the
claim requires. -/
theorem claim_C4 :
    loadContributorsCSV [] [s2c "Name", s2c "GitHub Username"]
        [[s2c "kevin", s2c "kevinburke"]]
      = Except.ok [s2c "kevin"]
    ∧ getUsernames [s2c "Name", s2c "GitHub Username"]
        [[s2c "kevin", s2c "kevinburke"]] (s2c "GitHub Username")
      = Except.ok [s2c "kevinburke"] := by
  exact ⟨rfl, rfl⟩

/-! ## Bot loop: `Bot.doTasks` and `Bot.Run` -/

/-- The loop body of `Bot.doTasks`, over the per-cycle results of each
registered task's `Do` (modelled as `none` for success, `some e` for a non-nil
error): tasks are invoked in registration order and a non-nil error is returned
immediately. The returned list records the indices of the tasks whose `Do` was
invoked, the `Option String` is `doTasks`'s return value. The accumulator is
the index of the next task. -/
def doTasksAux : List (Option String) → Nat → List Nat × Option String
  | [], _ => ([], none)
  | r :: rest, i =>
    match r with
    | some e => ([i], some e)
    | none =>
      let x := doTasksAux rest (i + 1)
      (i :: x.1, x.2)

/-- Models `Bot.doTasks` on the list of task results for one cycle. -/
def doTasks (results : List (Option String)) : List Nat × Option String :=
  doTasksAux results 0

/-- Models the error-handling of one cycle of `Bot.Run`: the value returned by
`doTasks` is logged via `log.Print` when non-nil, and the loop proceeds to the
corpus sync and the next tick either way. -/
def runCycleLogged (results : List (Option String)) : Option String :=
  (doTasks results).2

/-- Counterexample to claim C1 as stated: with two registered tasks where task 0
returns a non-nil error, task 1 is not invoked in that cycle — the invoked-index
list of `doTasks` does not contain 1, while the error is returned (and then
logged by `Run`). -/
theorem claim_C1_counterexample :
    (doTasks [some "boom", none]).1.contains 1 = false
    ∧ (doTasks [some "boom", none]).2 = some "boom" := ⟨rfl, rfl⟩

lemma range_map_succ_add (n i : Nat) :
    (List.range (n + 1)).map (· + i) = i :: (List.range n).map (· + (i + 1)) := by
  rw [List.range_succ_eq_map, List.map_cons, List.map_map]
  congr 1
  · simp
  · congr 1; funext x; simp only [Function.comp_apply]; omega

lemma doTasksAux_firstErr (results : List (Option String)) :
    ∀ k i e, results[k]? = some (some e) → results.take k = List.replicate k none →
      doTasksAux results i = ((List.range (k + 1)).map (· + i), some e) := by
  induction results with
  | nil => intro k i e hk _; simp at hk
  | cons r rest ih =>
    intro k i e hk htake
    cases k with
    | zero =>
      simp only [List.getElem?_cons_zero, Option.some.injEq] at hk
      subst hk
      simp [doTasksAux, List.range_succ_eq_map]
    | succ k' =>
      simp only [List.take_succ_cons, List.replicate_succ, List.cons.injEq] at htake
      obtain ⟨hr, htake'⟩ := htake
      subst hr
      simp only [List.getElem?_cons_succ] at hk
      simp only [doTasksAux]
      rw [ih k' (i + 1) e hk htake']
      rw [range_map_succ_add (k' + 1) i]

lemma doTasksAux_allOk (results : List (Option String)) :
    ∀ i, (∀ r ∈ results, r = none) →
      doTasksAux results i = ((List.range results.length).map (· + i), none) := by
  induction results with
  | nil => intro i _; simp [doTasksAux]
  | cons r rest ih =>
    intro i hall
    have hr : r = none := hall r (List.mem_cons_self r rest)
    subst hr
    simp only [doTasksAux]
    rw [ih (i + 1) (fun x hx => hall x (List.mem_cons_of_mem _ hx))]
    simp only [List.length_cons]
    rw [range_map_succ_add rest.length i]

lemma map_add_zero_id (l : List Nat) : l.map (· + 0) = l := by
  simp

/-- Claim C1 (as amended): when task `k`'s `Do` returns a non-nil error and
every earlier task succeeded, `Bot.doTasks` invokes exactly tasks `0..k` — the
tasks registered after `k` are *not* invoked in that cycle — and returns the
error, which `Run` then logs before continuing with the next tick; when every
task succeeds, all registered tasks are invoked in registration order. -/
theorem claim_C1 (results : List (Option String)) :
    (∀ k e, results[k]? = some (some e) → results.take k = List.replicate k none →
      doTasks results = (List.range (k + 1), some e) ∧ runCycleLogged results = some e)
    ∧ ((∀ r ∈ results, r = none) →
      doTasks results = (List.range results.length, none)
      ∧ runCycleLogged results = none) := by
  constructor
  · intro k e hk htake
    have h := doTasksAux_firstErr results k 0 e hk htake
    rw [map_add_zero_id] at h
    exact ⟨h, by show (doTasks results).2 = some e; rw [show doTasks results = _ from h]⟩
  · intro hall
    have h := doTasksAux_allOk results 0 hall
    rw [map_add_zero_id] at h
    exact ⟨h, by show (doTasks results).2 = none; rw [show doTasks results = _ from h]⟩

/-- Witness for the amended claim C1: with three tasks where task 1 fails,
exactly tasks 0 and 1 are invoked, and the error is what the cycle logs. -/
theorem claim_C1_witness :
    doTasks [none, some "boom", none] = (List.range 2, some "boom")
    ∧ runCycleLogged [none, some "boom", none] = some "boom" :=
  (claim_C1 [none, some "boom", none]).1 1 "boom" (by decide) (by decide)

/-! ## Congratulator: `Congratulator.Do` -/

/-- The attributes of a `maintner.GitHubIssue` consumed by the two tasks. -/
structure Issue where
  number : Int
  user : String
  closed : Bool
  pullRequest : Bool
  notExist : Bool
  labels : List String
deriving DecidableEq

/-- The GitHub API operations used by `Congratulator.Do`, as an environment of
fallible calls keyed by issue number (`none`-error = success). -/
structure CongratsAPI where
  addLabels : Int → Except String Unit
  createComment : Int → String → Except String Unit

/-- One outward API call issued by the congratulator, tagged (as ghost data)
with the author it concerns. -/
inductive CongratsAct
  | addLabel (username : String) (number : Int)
  | postComment (username : String) (number : Int) (body : String)
deriving DecidableEq

/-- The author an act concerns. -/
def CongratsAct.user : CongratsAct → String
  | .addLabel u _ => u
  | .postComment u _ _ => u

/-- One step of the `ForeachIssue` closure in `Congratulator.Do`: skip
tombstoned and non-PR issues and already-known authors; an author seen with a
second PR is marked known and deleted from the candidate map; otherwise the
issue is recorded as the author's candidate first PR. The accumulator is
`(knownContributors, prs)`, the candidate map kept in insertion order. -/
def pass1Step (acc : List String × List (String × Issue)) (gh : Issue) :
    List String × List (String × Issue) :=
  if gh.notExist || !gh.pullRequest then acc
  else if acc.1.contains gh.user then acc
  else if (acc.2.find? (fun p => p.1 == gh.user)).isSome then
    (gh.user :: acc.1, acc.2.filter (fun p => !(p.1 == gh.user)))
  else (acc.1, acc.2 ++ [(gh.user, gh)])

/-- The grouping pass of `Congratulator.Do` over the snapshot. -/
def congratsPass1 (known : List String) (issues : List Issue) :
    List String × List (String × Issue) :=
  issues.foldl pass1Step (known, [])

/-- The welcome pass of `Congratulator.Do` over the candidate map (Go iterates
the map in unspecified order; the model iterates in insertion order): closed or
already-labelled candidates are only marked known; otherwise the template is
rendered, the tracking label added first, then the comment posted — an error
from any of the three returns immediately, and only after a successful comment
is the author marked known. -/
def congratsPass2 (api : CongratsAPI) (render : String → Except String String) :
    List (String × Issue) → List String →
    List CongratsAct × List String × Option String
  | [], known => ([], known, none)
  | (username, gh) :: rest, known =>
    if gh.closed then congratsPass2 api render rest (username :: known)
    else if gh.labels.contains "new-contributor" then
      congratsPass2 api render rest (username :: known)
    else
      match render gh.user with
      | Except.error e => ([], known, some e)
      | Except.ok body =>
        match api.addLabels gh.number with
        | Except.error e => ([CongratsAct.addLabel username gh.number], known, some e)
        | Except.ok _ =>
          match api.createComment gh.number body with
          | Except.error e =>
            ([CongratsAct.addLabel username gh.number,
              CongratsAct.postComment username gh.number body], known, some e)
          | Except.ok _ =>
            let r := congratsPass2 api render rest (username :: known)
            (CongratsAct.addLabel username gh.number ::
              CongratsAct.postComment username gh.number body :: r.1, r.2)

/-- Models `Congratulator.Do`: the grouping pass over the snapshot, then the
welcome pass over the candidates. Returns the trace of API calls, the updated
known-contributors cache, and `Do`'s returned error. -/
def congratsDo (api : CongratsAPI) (render : String → Except String String)
    (known : List String) (issues : List Issue) :
    List CongratsAct × List String × Option String :=
  let p := congratsPass1 known issues
  congratsPass2 api render p.2 p.1

/-- A fresh open PR by alice, candidate for a welcome. -/
def issueC3 : Issue :=
  { number := 7, user := "alice", closed := false, pullRequest := true,
    notExist := false, labels := [] }

/-- API environment where adding the label succeeds but posting the comment
fails. -/
def apiC3 : CongratsAPI :=
  { addLabels := fun _ => Except.ok ()
  , createComment := fun _ _ => Except.error "comment api down" }

/-- A rendering of the welcome template that always succeeds. -/
def renderC3 : String → Except String String := fun u => Except.ok ("welcome @" ++ u)

/-- Counterexample to claim C3 as stated: for a first-PR candidate whose
label-add succeeds and whose comment-post fails, `Congratulator.Do` returns the
error but the author is *not* recorded in the known-contributors cache — the
`knownContributors[username] = true` line sits after the early `return err`. -/
theorem claim_C3_counterexample :
    (congratsDo apiC3 renderC3 [] [issueC3]).2.2 = some "comment api down"
    ∧ ((congratsDo apiC3 renderC3 [] [issueC3]).2.1).contains "alice" = false :=
  ⟨rfl, rfl⟩

/-- Claim C3 (as amended): for a first-PR candidate where the label-add
succeeds but the comment-post fails, `Congratulator.Do` returns the error and
the author is *not* recorded in the known-contributors cache, so the PR is
re-examined in a later cycle; in such a later cycle, where the snapshot now
shows the tracking label, the author is marked known with no further API
calls and no duplicate comment. -/
theorem claim_C3 (api : CongratsAPI) (render : String → Except String String)
    (known : List String) (gh : Issue) (e body : String)
    (hne : gh.notExist = false) (hpr : gh.pullRequest = true)
    (hcl : gh.closed = false)
    (hk : known.contains gh.user = false)
    (hlab : gh.labels.contains "new-contributor" = false)
    (hr : render gh.user = Except.ok body)
    (hadd : api.addLabels gh.number = Except.ok ())
    (hcom : api.createComment gh.number body = Except.error e) :
    congratsDo api render known [gh]
      = ([CongratsAct.addLabel gh.user gh.number,
          CongratsAct.postComment gh.user gh.number body], known, some e)
    ∧ (∀ (api2 : CongratsAPI) (render2 : String → Except String String),
        congratsDo api2 render2 known
          [{ gh with labels := "new-contributor" :: gh.labels }]
        = ([], gh.user :: known, none)) := by
  constructor
  · simp only [congratsDo, congratsPass1, List.foldl_cons, List.foldl_nil,
      pass1Step, hne, hpr, Bool.not_true, Bool.or_false, Bool.false_eq_true,
      if_false, hk, List.find?_nil, Option.isSome_none]
    simp only [congratsPass2, hcl, hlab, Bool.false_eq_true, if_false, hr,
      hadd, hcom]
  · intro api2 render2
    simp only [congratsDo, congratsPass1, List.foldl_cons, List.foldl_nil,
      pass1Step, hne, hpr, Bool.not_true, Bool.or_false, Bool.false_eq_true,
      if_false, hk, List.find?_nil, Option.isSome_none]
    simp only [congratsPass2, hcl, Bool.false_eq_true, if_false,
      List.contains_cons]
    simp

/-- Witness for the amended claim C3, at the concrete candidate scenario:
the error surfaces, alice stays unknown, and the later labelled cycle marks
her known without calls. -/
theorem claim_C3_witness :
    congratsDo apiC3 renderC3 [] [issueC3]
      = ([CongratsAct.addLabel "alice" 7,
          CongratsAct.postComment "alice" 7 "welcome @alice"], [], some "comment api down")
    ∧ congratsDo apiC3 renderC3 []
        [{ issueC3 with labels := "new-contributor" :: issueC3.labels }]
      = ([], ["alice"], none) := by
  have h := claim_C3 apiC3 renderC3 [] issueC3 "comment api down" "welcome @alice"
    rfl rfl rfl rfl rfl rfl rfl rfl
  exact ⟨h.1, h.2 apiC3 renderC3⟩

/-- Predicate `liveBy u gh`: true when `gh` is one of `u`'s live (non-tombstoned) pull
requests in the snapshot — the issues the grouping pass does not skip. -/
def liveBy (u : String) (gh : Issue) : Bool :=
  !gh.notExist && gh.pullRequest && gh.user == u

/-- Number of live PRs authored by `u` in the snapshot. -/
def liveCount (u : String) (issues : List Issue) : Nat :=
  (issues.filter (liveBy u)).length

lemma liveCount_cons (u : String) (gh : Issue) (rest : List Issue) :
    liveCount u (gh :: rest) =
      if liveBy u gh then liveCount u rest + 1 else liveCount u rest := by
  by_cases h : liveBy u gh = true
  · simp [liveCount, List.filter_cons, h]
  · simp [liveCount, List.filter_cons, h]

lemma liveBy_parts (u : String) (gh : Issue) (h : liveBy u gh = true) :
    gh.notExist = false ∧ gh.pullRequest = true ∧ gh.user = u := by
  simp only [liveBy, Bool.and_eq_true, Bool.not_eq_true', beq_iff_eq] at h
  exact ⟨h.1.1, h.1.2, h.2⟩

lemma liveBy_of_parts (u : String) (gh : Issue) (hne : gh.notExist = false)
    (hpr : gh.pullRequest = true) (hu : gh.user = u) : liveBy u gh = true := by
  simp [liveBy, hne, hpr, hu]

lemma pass1Step_of_skip (acc : List String × List (String × Issue)) (gh : Issue)
    (h : (gh.notExist || !gh.pullRequest) = true) : pass1Step acc gh = acc := by
  unfold pass1Step
  rw [if_pos h]

lemma pass1Step_of_known (acc : List String × List (String × Issue)) (gh : Issue)
    (hk : acc.1.contains gh.user = true) : pass1Step acc gh = acc := by
  unfold pass1Step
  by_cases h1 : (gh.notExist || !gh.pullRequest) = true
  · rw [if_pos h1]
  · rw [if_neg h1, if_pos hk]

lemma pass1Step_of_dup (acc : List String × List (String × Issue)) (gh : Issue)
    (h1 : ¬ ((gh.notExist || !gh.pullRequest) = true))
    (hk : ¬ (acc.1.contains gh.user = true))
    (hfind : (acc.2.find? (fun p => p.1 == gh.user)).isSome = true) :
    pass1Step acc gh
      = (gh.user :: acc.1, acc.2.filter (fun p => !(p.1 == gh.user))) := by
  unfold pass1Step
  rw [if_neg h1, if_neg hk, if_pos hfind]

lemma pass1Step_of_add (acc : List String × List (String × Issue)) (gh : Issue)
    (h1 : ¬ ((gh.notExist || !gh.pullRequest) = true))
    (hk : ¬ (acc.1.contains gh.user = true))
    (hfind : ¬ ((acc.2.find? (fun p => p.1 == gh.user)).isSome = true)) :
    pass1Step acc gh = (acc.1, acc.2 ++ [(gh.user, gh)]) := by
  unfold pass1Step
  rw [if_neg h1, if_neg hk, if_neg hfind]

lemma find?_filter_other (u v : String) (huv : v ≠ u)
    (l : List (String × Issue)) :
    (l.filter (fun p => !(p.1 == v))).find? (fun p => p.1 == u)
      = l.find? (fun p => p.1 == u) := by
  induction l with
  | nil => rfl
  | cons p rest ih =>
    by_cases hpu : (p.1 == u) = true
    · have hp1 : p.1 = u := by simpa using hpu
      have hpv : (!(p.1 == v)) = true := by
        simp only [hp1, Bool.not_eq_true', beq_eq_false_iff_ne, ne_eq]
        exact fun h => huv h.symm
      rw [List.filter_cons, if_pos hpv]
      simp only [List.find?_cons, hpu]
    · have hpu' : (p.1 == u) = false := by simpa using hpu
      rw [List.filter_cons]
      by_cases hpv : (!(p.1 == v)) = true
      · rw [if_pos hpv]
        simp only [List.find?_cons, hpu']
        exact ih
      · rw [if_neg hpv]
        simp only [List.find?_cons, hpu']
        exact ih

lemma find?_append_one_neg (q : String × Issue → Bool) (x : String × Issue)
    (hx : q x = false) (l : List (String × Issue)) :
    (l ++ [x]).find? q = l.find? q := by
  induction l with
  | nil => simp only [List.nil_append, List.find?_cons, hx]
  | cons p rest ih =>
    rw [List.cons_append]
    by_cases hp : q p = true
    · simp only [List.find?_cons, hp]
    · have hp' : q p = false := by simpa using hp
      simp only [List.find?_cons, hp']
      exact ih

lemma find?_append_one_of_none (q : String × Issue → Bool) (x : String × Issue)
    (l : List (String × Issue)) (hl : l.find? q = none) :
    (l ++ [x]).find? q = [x].find? q := by
  induction l with
  | nil => rfl
  | cons p rest ih =>
    by_cases hp : q p = true
    · simp only [List.find?_cons, hp] at hl
      exact absurd hl (by simp)
    · have hp' : q p = false := by simpa using hp
      simp only [List.find?_cons, hp'] at hl
      rw [List.cons_append]
      simp only [List.find?_cons, hp']
      exact ih hl

lemma find?_filter_self (u : String) (l : List (String × Issue)) :
    (l.filter (fun p => !(p.1 == u))).find? (fun p => p.1 == u) = none := by
  rw [List.find?_eq_none]
  intro p hp
  have := (List.mem_filter.mp hp).2
  simp only [Bool.not_eq_true'] at this
  simp [this]

/-- On an issue that is not a live PR by `u`, one grouping-pass step leaves
`u`'s state — known-cache membership and candidate-map entry — unchanged. -/
lemma pass1Step_not_live (u : String) (acc : List String × List (String × Issue))
    (gh : Issue) (hnotlive : ¬ (liveBy u gh = true)) :
    (pass1Step acc gh).1.contains u = acc.1.contains u
    ∧ (pass1Step acc gh).2.find? (fun p => p.1 == u)
      = acc.2.find? (fun p => p.1 == u) := by
  by_cases h1 : (gh.notExist || !gh.pullRequest) = true
  · rw [pass1Step_of_skip acc gh h1]
    exact ⟨rfl, rfl⟩
  · have hgu : gh.user ≠ u := by
      intro he
      apply hnotlive
      simp only [Bool.or_eq_true, Bool.not_eq_true'] at h1
      push_neg at h1
      exact liveBy_of_parts u gh (by simpa using h1.1) (by simpa using h1.2) he
    by_cases h2 : acc.1.contains gh.user = true
    · rw [pass1Step_of_known acc gh h2]
      exact ⟨rfl, rfl⟩
    · by_cases h3 : (acc.2.find? (fun p => p.1 == gh.user)).isSome = true
      · rw [pass1Step_of_dup acc gh h1 h2 h3]
        constructor
        · simp only [List.contains_cons]
          have hne : (u == gh.user) = false := by
            simp [beq_iff_eq]
            exact fun h => hgu h.symm
          rw [hne, Bool.false_or]
        · exact find?_filter_other u gh.user hgu acc.2
      · rw [pass1Step_of_add acc gh h1 h2 h3]
        refine ⟨rfl, ?_⟩
        apply find?_append_one_neg
        simp only [beq_eq_false_iff_ne, ne_eq]
        exact hgu

lemma pass1_S2 (u : String) :
    ∀ (issues : List Issue) (k : List String) (prs : List (String × Issue)),
      k.contains u = true → prs.find? (fun p => p.1 == u) = none →
      (issues.foldl pass1Step (k, prs)).1.contains u = true
      ∧ (issues.foldl pass1Step (k, prs)).2.find? (fun p => p.1 == u) = none := by
  intro issues
  induction issues with
  | nil => intro k prs hk hf; exact ⟨hk, hf⟩
  | cons gh rest ih =>
    intro k prs hk hf
    simp only [List.foldl_cons]
    by_cases hlive : liveBy u gh = true
    · obtain ⟨hne, hpr, hu⟩ := liveBy_parts u gh hlive
      have hstep : pass1Step (k, prs) gh = (k, prs) :=
        pass1Step_of_known (k, prs) gh (by rw [hu]; exact hk)
      rw [hstep]
      exact ih k prs hk hf
    · obtain ⟨hc, hfq⟩ := pass1Step_not_live u (k, prs) gh hlive
      have := ih (pass1Step (k, prs) gh).1 (pass1Step (k, prs) gh).2
        (by rw [hc]; exact hk) (by rw [hfq]; exact hf)
      exact this

lemma pass1_S1 (u : String) :
    ∀ (issues : List Issue) (k : List String) (prs : List (String × Issue)),
      k.contains u = false →
      (prs.find? (fun p => p.1 == u)).isSome = true →
      1 ≤ liveCount u issues →
      (issues.foldl pass1Step (k, prs)).1.contains u = true
      ∧ (issues.foldl pass1Step (k, prs)).2.find? (fun p => p.1 == u) = none := by
  intro issues
  induction issues with
  | nil =>
    intro k prs _ _ hcnt
    simp [liveCount] at hcnt
  | cons gh rest ih =>
    intro k prs hk hfind hcnt
    simp only [List.foldl_cons]
    by_cases hlive : liveBy u gh = true
    · obtain ⟨hne, hpr, hu⟩ := liveBy_parts u gh hlive
      have hstep : pass1Step (k, prs) gh
          = (gh.user :: k, prs.filter (fun p => !(p.1 == gh.user))) :=
        pass1Step_of_dup (k, prs) gh
          (by simp [hne, hpr])
          (show ¬ (k.contains gh.user = true) from by
            rw [hu, hk]; exact Bool.false_ne_true)
          (by rw [hu]; exact hfind)
      rw [hstep]
      apply pass1_S2
      · rw [hu]
        simp [List.contains_cons]
      · rw [hu]
        exact find?_filter_self u prs
    · have hcnt' : 1 ≤ liveCount u rest := by
        rw [liveCount_cons, if_neg hlive] at hcnt
        exact hcnt
      obtain ⟨hc, hfq⟩ := pass1Step_not_live u (k, prs) gh hlive
      exact ih (pass1Step (k, prs) gh).1 (pass1Step (k, prs) gh).2
        (by rw [hc]; exact hk) (by rw [hfq]; exact hfind) hcnt'

lemma pass1_S0 (u : String) :
    ∀ (issues : List Issue) (k : List String) (prs : List (String × Issue)),
      k.contains u = false →
      prs.find? (fun p => p.1 == u) = none →
      2 ≤ liveCount u issues →
      (issues.foldl pass1Step (k, prs)).1.contains u = true
      ∧ (issues.foldl pass1Step (k, prs)).2.find? (fun p => p.1 == u) = none := by
  intro issues
  induction issues with
  | nil =>
    intro k prs _ _ hcnt
    simp [liveCount] at hcnt
  | cons gh rest ih =>
    intro k prs hk hf hcnt
    simp only [List.foldl_cons]
    by_cases hlive : liveBy u gh = true
    · obtain ⟨hne, hpr, hu⟩ := liveBy_parts u gh hlive
      have hstep : pass1Step (k, prs) gh = (k, prs ++ [(gh.user, gh)]) :=
        pass1Step_of_add (k, prs) gh
          (by simp [hne, hpr])
          (show ¬ (k.contains gh.user = true) from by
            rw [hu, hk]; exact Bool.false_ne_true)
          (show ¬ ((prs.find? (fun p => p.1 == gh.user)).isSome = true) from by
            rw [hu, hf]; simp)
      rw [hstep]
      have hcnt' : 1 ≤ liveCount u rest := by
        rw [liveCount_cons, if_pos hlive] at hcnt
        omega
      apply pass1_S1 u rest k _ hk _ hcnt'
      rw [find?_append_one_of_none _ _ _ hf]
      have hbeq : ((gh.user, gh).1 == u) = true := by simp [hu]
      simp only [List.find?_cons, hbeq, Option.isSome_some]
    · have hcnt' : 2 ≤ liveCount u rest := by
        rw [liveCount_cons, if_neg hlive] at hcnt
        exact hcnt
      obtain ⟨hc, hfq⟩ := pass1Step_not_live u (k, prs) gh hlive
      exact ih (pass1Step (k, prs) gh).1 (pass1Step (k, prs) gh).2
        (by rw [hc]; exact hk) (by rw [hfq]; exact hf) hcnt'

lemma pass2_known_mono (api : CongratsAPI) (render : String → Except String String)
    (u : String) :
    ∀ (prs : List (String × Issue)) (known : List String),
      known.contains u = true →
      ((congratsPass2 api render prs known).2.1).contains u = true := by
  intro prs
  induction prs with
  | nil => intro known hk; exact hk
  | cons p rest ih =>
    intro known hk
    obtain ⟨username, gh⟩ := p
    have hk' : (username :: known).contains u = true := by
      simp only [List.contains_cons, hk, Bool.or_true]
    unfold congratsPass2
    split
    · exact ih _ hk'
    split
    · exact ih _ hk'
    · split
      · exact hk
      split
      · exact hk
      split
      · exact hk
      · exact ih _ hk'

lemma pass2_acts_from (api : CongratsAPI) (render : String → Except String String) :
    ∀ (prs : List (String × Issue)) (known : List String)
      (a : CongratsAct), a ∈ (congratsPass2 api render prs known).1 →
      ∃ p ∈ prs, CongratsAct.user a = p.1 := by
  intro prs
  induction prs with
  | nil => intro known a ha; simp [congratsPass2] at ha
  | cons p rest ih =>
    intro known a ha
    obtain ⟨username, gh⟩ := p
    unfold congratsPass2 at ha
    split at ha
    · obtain ⟨q, hq, hqa⟩ := ih _ a ha
      exact ⟨q, List.mem_cons_of_mem _ hq, hqa⟩
    split at ha
    · obtain ⟨q, hq, hqa⟩ := ih _ a ha
      exact ⟨q, List.mem_cons_of_mem _ hq, hqa⟩
    · split at ha
      · simp at ha
      split at ha
      · simp only [List.mem_singleton] at ha
        subst ha
        exact ⟨(username, gh), List.mem_cons_self _ _, rfl⟩
      split at ha
      · rcases List.mem_pair.mp ha with h | h <;> subst h
        · exact ⟨(username, gh), List.mem_cons_self _ _, rfl⟩
        · exact ⟨(username, gh), List.mem_cons_self _ _, rfl⟩
      · rcases List.mem_cons.mp ha with h | h'
        · subst h
          exact ⟨(username, gh), List.mem_cons_self _ _, rfl⟩
        rcases List.mem_cons.mp h' with h | h''
        · subst h
          exact ⟨(username, gh), List.mem_cons_self _ _, rfl⟩
        · obtain ⟨q, hq, hqa⟩ := ih _ a h''
          exact ⟨q, List.mem_cons_of_mem _ hq, hqa⟩

/-- Claim C8: an author with two or more live (non-tombstoned) pull requests in
the snapshot is never welcomed by `Congratulator.Do`: no label-add and no
comment-post is issued for any of that author's PRs, and the author is marked
known in the cache. -/
theorem claim_C8 (api : CongratsAPI) (render : String → Except String String)
    (known : List String) (issues : List Issue) (u : String)
    (h2 : 2 ≤ liveCount u issues) :
    ((congratsDo api render known issues).2.1).contains u = true
    ∧ ∀ a ∈ (congratsDo api render known issues).1, CongratsAct.user a ≠ u := by
  have hfind : (congratsPass1 known issues).1.contains u = true
      ∧ (congratsPass1 known issues).2.find? (fun p => p.1 == u) = none := by
    by_cases hk : known.contains u = true
    · exact pass1_S2 u issues known [] hk rfl
    · exact pass1_S0 u issues known []
        (by simpa using hk) rfl h2
  have hpass1 : (congratsPass1 known issues).1.contains u = true
      ∧ ∀ p ∈ (congratsPass1 known issues).2, p.1 ≠ u := by
    refine ⟨hfind.1, ?_⟩
    intro p hp
    have := List.find?_eq_none.mp hfind.2 p hp
    simpa using this
  constructor
  · exact pass2_known_mono api render u _ _ hpass1.1
  · intro a ha
    obtain ⟨p, hp, hup⟩ := pass2_acts_from api render _ _ a ha
    rw [hup]
    exact hpass1.2 p hp

/-- Three open PRs: two by bob, one by carol. -/
def issuesW : List Issue :=
  [{ number := 1, user := "bob", closed := false, pullRequest := true,
     notExist := false, labels := [] },
   { number := 2, user := "bob", closed := false, pullRequest := true,
     notExist := false, labels := [] },
   { number := 3, user := "carol", closed := false, pullRequest := true,
     notExist := false, labels := [] }]

/-- API environment where every congratulator call succeeds. -/
def apiW : CongratsAPI :=
  { addLabels := fun _ => Except.ok ()
  , createComment := fun _ _ => Except.ok () }

/-- A rendering of the welcome template that always succeeds. -/
def renderW : String → Except String String := fun u => Except.ok u

/-- Witness for claim C8: bob has two open PRs in the snapshot, and after the
cycle bob is marked known (while no act of the concrete trace concerns bob). -/
theorem claim_C8_witness :
    2 ≤ liveCount "bob" issuesW
    ∧ ((congratsDo apiW renderW [] issuesW).2.1).contains "bob" = true :=
  ⟨by decide, (claim_C8 apiW renderW [] issuesW "bob" (by decide)).1⟩

/-! ## CLA checker: `CLAChecker.postStatus` and `CLAChecker.Do` -/

/-- The part of a fetched `github.PullRequest` the checker consumes. -/
structure PR where
  headSHA : String
deriving DecidableEq

/-- A changed file of the PR (consumed only by the caller-supplied exemption
predicate). -/
structure CommitFile where
  filename : String
deriving DecidableEq

/-- One element of the commit-status list returned by `ListStatuses`. -/
structure Status where
  context : String
  state : String
deriving DecidableEq

/-- The `github.RepoStatus` value built by `CLAChecker.postStatus`. -/
structure RepoStatus where
  state : String
  context : String
  description : Option String
  targetURL : Option String
deriving DecidableEq

/-- The status posted for a signed CLA. -/
def claSuccessStatus : RepoStatus :=
  { state := "success", context := "cla-bot",
    description := some "Contributor has signed the CLA", targetURL := none }

/-- The status posted for an exempt PR: `sr.State` is first set to the
"unnecessary" argument and then overwritten with "success". -/
def claUnnecessaryStatus : RepoStatus :=
  { state := "success", context := "cla-bot",
    description := some "Changes do not require CLA submission", targetURL := none }

/-- The failing status, carrying the CLA-signing link in `TargetURL`. -/
def claFailureStatus (claURL : String) : RepoStatus :=
  { state := "failure", context := "cla-bot",
    description := some "Contributor has not signed the CLA",
    targetURL := some claURL }

/-- The switch of `CLAChecker.postStatus` building the `RepoStatus`: `none`
models the `panic("unknown state " + state)` default branch. -/
def mkRepoStatus (claURL : String) (state : String) : Option RepoStatus :=
  if state = "failure" then some (claFailureStatus claURL)
  else if state = "unnecessary" then some claUnnecessaryStatus
  else if state = "success" then some claSuccessStatus
  else none

/-- Configuration of a `CLAChecker`: the CLA URL, the optional caller-supplied
exemption predicate `CanSkipCLA`, and the loaded contributor allowlist. -/
structure ClaCfg where
  claURL : String
  canSkipCLA : Option (PR → List CommitFile → Bool)
  contributors : String → Bool

/-- Models `c.CanSkipCLA != nil && c.CanSkipCLA(pr, files)`. -/
def canSkipEval (cfg : ClaCfg) (pr : PR) (files : List CommitFile) : Bool :=
  match cfg.canSkipCLA with
  | none => false
  | some f => f pr files

/-- The GitHub API operations used by `CLAChecker.Do`, as an environment of
fallible calls. -/
structure ClaAPI where
  getPR : Int → Except String PR
  listFiles : Int → Except String (List CommitFile)
  listStatuses : String → Except String (List Status)
  createStatus : String → RepoStatus → Except String Nat

/-- One step taken by `CLAChecker.Do` for a PR: waiting on the readiness
channel, reading the allowlist under the mutex, or one of the four API calls.
`createStatus` records both the state string passed to `postStatus` and the
`RepoStatus` it built. -/
inductive ClaAct
  | waitReady
  | readAllowlist (user : String)
  | callGetPR (number : Int)
  | callListFiles (number : Int)
  | callListStatuses (sha : String)
  | createStatus (sha : String) (stateArg : String) (sr : RepoStatus)
deriving DecidableEq

/-- How the processing of the issue list ends: normally, with an error
returned to the bot loop, with `log.Fatal` (process exit), or with a panic. -/
inductive Outcome
  | ok
  | err (e : String)
  | fatal (e : String)
  | panicked (msg : String)
deriving DecidableEq

/-- Result of `CLAChecker.postStatus`: the status was posted, the HTTP call
failed, or the switch hit its panicking default branch. -/
inductive PostResult
  | posted (id : Nat) (sr : RepoStatus)
  | postErr (e : String) (sr : RepoStatus)
  | unknownState (msg : String)
deriving DecidableEq

/-- Models `CLAChecker.postStatus`: build the `RepoStatus` (panicking on an
unknown state), then call `CreateStatus`. -/
def postStatus (cfg : ClaCfg) (api : ClaAPI) (sha : String) (state : String) :
    PostResult :=
  match mkRepoStatus cfg.claURL state with
  | none => PostResult.unknownState ("unknown state " ++ state)
  | some sr =>
    match api.createStatus sha sr with
    | Except.error e => PostResult.postErr e sr
    | Except.ok id => PostResult.posted id sr

/-- Models the `ForeachIssue` closure of `CLAChecker.Do` on one issue: skip
tombstoned, non-PR, closed and already-cached PRs; otherwise wait for the
allowlist, read it, fetch the PR, its files and its statuses (an API error
returns immediately), then reconcile the `cla-bot` status. On the
allowlisted-or-exempt side, an existing `cla-bot` status reading "success"
caches the PR number; otherwise the desired status is posted (errors
returned). On the other side, an existing failing `cla-bot` status means no
action; otherwise a failing status is posted, and an error there is
`log.Fatal` — the `Outcome.fatal` case. -/
def claDoOne (cfg : ClaCfg) (api : ClaAPI) (cache : List Int) (gh : Issue) :
    List ClaAct × List Int × Outcome :=
  if gh.notExist then ([], cache, Outcome.ok)
  else if !gh.pullRequest then ([], cache, Outcome.ok)
  else if gh.closed then ([], cache, Outcome.ok)
  else if cache.contains gh.number then ([], cache, Outcome.ok)
  else
    let pre : List ClaAct := [ClaAct.waitReady, ClaAct.readAllowlist gh.user]
    let isContributor := cfg.contributors gh.user
    match api.getPR gh.number with
    | Except.error e => (pre ++ [ClaAct.callGetPR gh.number], cache, Outcome.err e)
    | Except.ok pr =>
      match api.listFiles gh.number with
      | Except.error e =>
        (pre ++ [ClaAct.callGetPR gh.number, ClaAct.callListFiles gh.number],
          cache, Outcome.err e)
      | Except.ok files =>
        match api.listStatuses pr.headSHA with
        | Except.error e =>
          (pre ++ [ClaAct.callGetPR gh.number, ClaAct.callListFiles gh.number,
            ClaAct.callListStatuses pr.headSHA], cache, Outcome.err e)
        | Except.ok statuses =>
          let calls := pre ++ [ClaAct.callGetPR gh.number,
            ClaAct.callListFiles gh.number, ClaAct.callListStatuses pr.headSHA]
          let canSkip := canSkipEval cfg pr files
          if isContributor || canSkip then
            let postStatusState := if canSkip then "unnecessary" else "success"
            match statuses.find? (fun s => s.context == "cla-bot") with
            | some st =>
              if st.state == "success" then (calls, gh.number :: cache, Outcome.ok)
              else
                match postStatus cfg api pr.headSHA postStatusState with
                | PostResult.unknownState m => (calls, cache, Outcome.panicked m)
                | PostResult.postErr e sr =>
                  (calls ++ [ClaAct.createStatus pr.headSHA postStatusState sr],
                    cache, Outcome.err e)
                | PostResult.posted _ sr =>
                  (calls ++ [ClaAct.createStatus pr.headSHA postStatusState sr],
                    cache, Outcome.ok)
            | none =>
              match postStatus cfg api pr.headSHA postStatusState with
              | PostResult.unknownState m => (calls, cache, Outcome.panicked m)
              | PostResult.postErr e sr =>
                (calls ++ [ClaAct.createStatus pr.headSHA postStatusState sr],
                  cache, Outcome.err e)
              | PostResult.posted _ sr =>
                (calls ++ [ClaAct.createStatus pr.headSHA postStatusState sr],
                  cache, Outcome.ok)
          else
            if statuses.any (fun s => s.context == "cla-bot" && s.state == "failure") then
              (calls, cache, Outcome.ok)
            else
              match postStatus cfg api pr.headSHA "failure" with
              | PostResult.unknownState m => (calls, cache, Outcome.panicked m)
              | PostResult.postErr e sr =>
                (calls ++ [ClaAct.createStatus pr.headSHA "failure" sr],
                  cache, Outcome.fatal e)
              | PostResult.posted _ sr =>
                (calls ++ [ClaAct.createStatus pr.headSHA "failure" sr],
                  cache, Outcome.ok)

/-- Models `CLAChecker.Do` over the snapshot's issues: `ForeachIssue` stops at
the first non-nil error (and `log.Fatal`, modelled by `Outcome.fatal`, stops
the whole process). -/
def claDo (cfg : ClaCfg) (api : ClaAPI) : List Int → List Issue →
    List ClaAct × List Int × Outcome
  | cache, [] => ([], cache, Outcome.ok)
  | cache, gh :: rest =>
    let r := claDoOne cfg api cache gh
    if r.2.2 = Outcome.ok then
      let r2 := claDo cfg api r.2.1 rest
      (r.1 ++ r2.1, r2.2.1, r2.2.2)
    else (r.1, r.2.1, r.2.2)

/-- The statuses posted in a trace, in order. -/
def postedStatuses (tr : List ClaAct) : List RepoStatus :=
  tr.filterMap (fun a =>
    match a with
    | ClaAct.createStatus _ _ sr => some sr
    | _ => none)

/-- The state strings passed to `postStatus` in a trace, in order. -/
def postStateArgs (tr : List ClaAct) : List String :=
  tr.filterMap (fun a =>
    match a with
    | ClaAct.createStatus _ st _ => some st
    | _ => none)

/-- Whether an outcome is the panic case. -/
def isPanicked : Outcome → Bool
  | Outcome.panicked _ => true
  | _ => false

/-- CLA checker configuration with no exemptions and an empty allowlist. -/
def cfgC2 : ClaCfg :=
  { claURL := "https://example.com/cla", canSkipCLA := none,
    contributors := fun _ => false }

/-- An open PR by a non-allowlisted author. -/
def issueC2 : Issue :=
  { number := 5, user := "dave", closed := false, pullRequest := true,
    notExist := false, labels := [] }

/-- API environment whose reads succeed (no existing statuses) and whose
status-creation call fails. -/
def apiC2 : ClaAPI :=
  { getPR := fun _ => Except.ok { headSHA := "abc" }
  , listFiles := fun _ => Except.ok []
  , listStatuses := fun _ => Except.ok []
  , createStatus := fun _ _ => Except.error "api down" }

/-- Same environment but with the initial `Get` of the PR failing. -/
def apiC2g : ClaAPI :=
  { apiC2 with getPR := fun _ => Except.error "get failed" }

/-- Claim C2 (code bug): when posting the failing CLA status errors out for a
non-allowlisted, non-exempt author, `CLAChecker.Do` does not return the error —
it calls `log.Fatal`, terminating the process (`Outcome.fatal`), unlike the
other API-failure paths (e.g. a failing `Get`, second conjunct), which return
the error to the bot loop as claimed. -/
theorem claim_C2 :
    (claDo cfgC2 apiC2 [] [issueC2]).2.2 = Outcome.fatal "api down"
    ∧ (claDo cfgC2 apiC2g [] [issueC2]).2.2 = Outcome.err "get failed" :=
  ⟨rfl, rfl⟩

/-- Claim C6: an open PR by an allowlisted author with no existing status under
the "cla-bot" context receives exactly one status post, with state "success",
in that cycle (and the cycle neither caches the PR nor errs); in a subsequent
cycle where the first "cla-bot" status now reads "success", the PR number is
recorded in the signed-CLA cache with no status post; and once cached, a cycle
issues zero API calls for that PR (empty trace). -/
theorem claim_C6 (cfg : ClaCfg) (api1 api2 : ClaAPI) (cache : List Int)
    (gh : Issue) (pr pr2 : PR) (files files2 : List CommitFile)
    (statuses statuses2 : List Status) (st2 : Status) (sid : Nat)
    (hne : gh.notExist = false) (hpr : gh.pullRequest = true)
    (hcl : gh.closed = false) (hc : cache.contains gh.number = false)
    (hallow : cfg.contributors gh.user = true)
    (h1g : api1.getPR gh.number = Except.ok pr)
    (h1f : api1.listFiles gh.number = Except.ok files)
    (h1s : api1.listStatuses pr.headSHA = Except.ok statuses)
    (hskip : canSkipEval cfg pr files = false)
    (hnost : statuses.find? (fun s => s.context == "cla-bot") = none)
    (h1c : api1.createStatus pr.headSHA claSuccessStatus = Except.ok sid)
    (h2g : api2.getPR gh.number = Except.ok pr2)
    (h2f : api2.listFiles gh.number = Except.ok files2)
    (h2s : api2.listStatuses pr2.headSHA = Except.ok statuses2)
    (hfound : statuses2.find? (fun s => s.context == "cla-bot") = some st2)
    (hst2 : st2.state = "success") :
    postedStatuses (claDoOne cfg api1 cache gh).1 = [claSuccessStatus]
    ∧ (claDoOne cfg api1 cache gh).2.1 = cache
    ∧ (claDoOne cfg api1 cache gh).2.2 = Outcome.ok
    ∧ postedStatuses (claDoOne cfg api2 cache gh).1 = []
    ∧ (claDoOne cfg api2 cache gh).2.1 = gh.number :: cache
    ∧ (claDoOne cfg api2 (gh.number :: cache) gh).1 = [] := by
  have hc' : gh.number ∉ cache := by simpa using hc
  have hpost1 : postStatus cfg api1 pr.headSHA "success"
      = PostResult.posted sid claSuccessStatus := by
    have hunfold : postStatus cfg api1 pr.headSHA "success"
        = match api1.createStatus pr.headSHA claSuccessStatus with
          | Except.error e => PostResult.postErr e claSuccessStatus
          | Except.ok id => PostResult.posted id claSuccessStatus := rfl
    rw [hunfold, h1c]
  have hrun1 : claDoOne cfg api1 cache gh
      = ([ClaAct.waitReady, ClaAct.readAllowlist gh.user, ClaAct.callGetPR gh.number,
          ClaAct.callListFiles gh.number, ClaAct.callListStatuses pr.headSHA,
          ClaAct.createStatus pr.headSHA "success" claSuccessStatus],
         cache, Outcome.ok) := by
    simp [claDoOne, hne, hpr, hcl, hc', h1g, h1f, h1s, hallow, hskip, hnost, hpost1]
  have hrun2 : claDoOne cfg api2 cache gh
      = ([ClaAct.waitReady, ClaAct.readAllowlist gh.user, ClaAct.callGetPR gh.number,
          ClaAct.callListFiles gh.number, ClaAct.callListStatuses pr2.headSHA],
         gh.number :: cache, Outcome.ok) := by
    simp [claDoOne, hne, hpr, hcl, hc', h2g, h2f, h2s, hallow, hfound, hst2]
  have hrun3 : claDoOne cfg api2 (gh.number :: cache) gh
      = ([], gh.number :: cache, Outcome.ok) := by
    simp [claDoOne, hne, hpr, hcl, List.contains_cons]
  refine ⟨?_, ?_, ?_, ?_, ?_, ?_⟩
  · rw [hrun1]; rfl
  · rw [hrun1]
  · rw [hrun1]
  · rw [hrun2]; rfl
  · rw [hrun2]
  · rw [hrun3]

/-- CLA checker configuration allowlisting alice, with no exemptions. -/
def cfgC6 : ClaCfg :=
  { claURL := "https://example.com/cla", canSkipCLA := none,
    contributors := fun u => u == "alice" }

/-- An open PR by the allowlisted alice. -/
def issueC6 : Issue :=
  { number := 9, user := "alice", closed := false, pullRequest := true,
    notExist := false, labels := [] }

/-- First-cycle API: reads succeed, no statuses yet, posting succeeds. -/
def apiC6a : ClaAPI :=
  { getPR := fun _ => Except.ok { headSHA := "sha9" }
  , listFiles := fun _ => Except.ok []
  , listStatuses := fun _ => Except.ok []
  , createStatus := fun _ _ => Except.ok 11 }

/-- Second-cycle API: the posted "cla-bot" status now reads "success". -/
def apiC6b : ClaAPI :=
  { getPR := fun _ => Except.ok { headSHA := "sha9" }
  , listFiles := fun _ => Except.ok []
  , listStatuses := fun _ => Except.ok [⟨"cla-bot", "success"⟩]
  , createStatus := fun _ _ => Except.ok 11 }

/-- Witness for claim C6 at a concrete PR and API environment. -/
theorem claim_C6_witness :
    postedStatuses (claDoOne cfgC6 apiC6a [] issueC6).1 = [claSuccessStatus]
    ∧ (claDoOne cfgC6 apiC6b [] issueC6).2.1 = [(9 : Int)]
    ∧ (claDoOne cfgC6 apiC6b [(9 : Int)] issueC6).1 = [] := by
  have h := claim_C6 cfgC6 apiC6a apiC6b [] issueC6
    { headSHA := "sha9" } { headSHA := "sha9" } [] [] []
    [{ context := "cla-bot", state := "success" }]
    { context := "cla-bot", state := "success" } 11
    rfl rfl rfl rfl rfl rfl rfl rfl rfl rfl rfl rfl rfl rfl rfl rfl
  exact ⟨h.1, h.2.2.2.2.1, h.2.2.2.2.2⟩

/-- Claim C7: an open PR by a non-allowlisted, non-exempt author with no
existing failing "cla-bot" status receives exactly one status post, with state
"failure" and the CLA-signing link as its target URL (`claFailureStatus`
carries `targetURL = some cfg.claURL`); when a failing "cla-bot" status is
already present, the cycle posts no status for that PR. -/
theorem claim_C7 (cfg : ClaCfg) (api1 api2 : ClaAPI) (cache : List Int)
    (gh : Issue) (pr pr2 : PR) (files files2 : List CommitFile)
    (statuses statuses2 : List Status) (sid : Nat)
    (hne : gh.notExist = false) (hpr : gh.pullRequest = true)
    (hcl : gh.closed = false) (hc : cache.contains gh.number = false)
    (hallow : cfg.contributors gh.user = false)
    (h1g : api1.getPR gh.number = Except.ok pr)
    (h1f : api1.listFiles gh.number = Except.ok files)
    (h1s : api1.listStatuses pr.headSHA = Except.ok statuses)
    (hskip : canSkipEval cfg pr files = false)
    (hnofail : statuses.any (fun s => s.context == "cla-bot" && s.state == "failure")
      = false)
    (h1c : api1.createStatus pr.headSHA (claFailureStatus cfg.claURL) = Except.ok sid)
    (h2g : api2.getPR gh.number = Except.ok pr2)
    (h2f : api2.listFiles gh.number = Except.ok files2)
    (h2s : api2.listStatuses pr2.headSHA = Except.ok statuses2)
    (hskip2 : canSkipEval cfg pr2 files2 = false)
    (hfail2 : statuses2.any (fun s => s.context == "cla-bot" && s.state == "failure")
      = true) :
    postedStatuses (claDoOne cfg api1 cache gh).1 = [claFailureStatus cfg.claURL]
    ∧ (claDoOne cfg api1 cache gh).2.1 = cache
    ∧ (claDoOne cfg api1 cache gh).2.2 = Outcome.ok
    ∧ postedStatuses (claDoOne cfg api2 cache gh).1 = []
    ∧ (claDoOne cfg api2 cache gh).2.1 = cache
    ∧ (claDoOne cfg api2 cache gh).2.2 = Outcome.ok := by
  have hc' : gh.number ∉ cache := by simpa using hc
  have hpost1 : postStatus cfg api1 pr.headSHA "failure"
      = PostResult.posted sid (claFailureStatus cfg.claURL) := by
    have hunfold : postStatus cfg api1 pr.headSHA "failure"
        = match api1.createStatus pr.headSHA (claFailureStatus cfg.claURL) with
          | Except.error e => PostResult.postErr e (claFailureStatus cfg.claURL)
          | Except.ok id => PostResult.posted id (claFailureStatus cfg.claURL) := rfl
    rw [hunfold, h1c]
  have hrun1 : claDoOne cfg api1 cache gh
      = ([ClaAct.waitReady, ClaAct.readAllowlist gh.user, ClaAct.callGetPR gh.number,
          ClaAct.callListFiles gh.number, ClaAct.callListStatuses pr.headSHA,
          ClaAct.createStatus pr.headSHA "failure" (claFailureStatus cfg.claURL)],
         cache, Outcome.ok) := by
    simp [claDoOne, hne, hpr, hcl, hc', h1g, h1f, h1s, hallow, hskip, hnofail, hpost1]
  have hrun2 : claDoOne cfg api2 cache gh
      = ([ClaAct.waitReady, ClaAct.readAllowlist gh.user, ClaAct.callGetPR gh.number,
          ClaAct.callListFiles gh.number, ClaAct.callListStatuses pr2.headSHA],
         cache, Outcome.ok) := by
    simp [claDoOne, hne, hpr, hcl, hc', h2g, h2f, h2s, hallow, hskip2, hfail2]
  refine ⟨?_, ?_, ?_, ?_, ?_, ?_⟩
  · rw [hrun1]; rfl
  · rw [hrun1]
  · rw [hrun1]
  · rw [hrun2]; rfl
  · rw [hrun2]
  · rw [hrun2]

/-- An open PR by the non-allowlisted dave (reusing `cfgC2`, whose allowlist is
empty). First-cycle API: reads succeed, no statuses, posting succeeds. -/
def apiC7a : ClaAPI :=
  { getPR := fun _ => Except.ok { headSHA := "sha5" }
  , listFiles := fun _ => Except.ok []
  , listStatuses := fun _ => Except.ok []
  , createStatus := fun _ _ => Except.ok 12 }

/-- Second-cycle API: the failing "cla-bot" status is now present. -/
def apiC7b : ClaAPI :=
  { getPR := fun _ => Except.ok { headSHA := "sha5" }
  , listFiles := fun _ => Except.ok []
  , listStatuses := fun _ => Except.ok [⟨"cla-bot", "failure"⟩]
  , createStatus := fun _ _ => Except.ok 12 }

/-- Witness for claim C7 at a concrete PR and API environment. -/
theorem claim_C7_witness :
    postedStatuses (claDoOne cfgC2 apiC7a [] issueC2).1
      = [claFailureStatus "https://example.com/cla"]
    ∧ postedStatuses (claDoOne cfgC2 apiC7b [] issueC2).1 = [] := by
  have h := claim_C7 cfgC2 apiC7a apiC7b [] issueC2
    { headSHA := "sha5" } { headSHA := "sha5" } [] [] []
    [{ context := "cla-bot", state := "failure" }] 12
    rfl rfl rfl rfl rfl rfl rfl rfl rfl rfl rfl rfl rfl rfl rfl rfl
  exact ⟨h.1, h.2.2.2.1⟩

/-- Scanner for the wait-before-read discipline: a `readAllowlist` act is
permitted only after a `waitReady` act has occurred earlier in the trace. -/
def wellWaited : Bool → List ClaAct → Bool
  | _, [] => true
  | _, ClaAct.waitReady :: rest => wellWaited true rest
  | seen, ClaAct.readAllowlist _ :: rest => seen && wellWaited seen rest
  | seen, _ :: rest => wellWaited seen rest

lemma wellWaited_true_of_false :
    ∀ l : List ClaAct, wellWaited false l = true → wellWaited true l = true := by
  intro l
  induction l with
  | nil => intro _; rfl
  | cons a rest ih =>
    cases a with
    | waitReady => intro h; exact h
    | readAllowlist u => intro h; exact absurd h Bool.false_ne_true
    | callGetPR n => intro h; exact ih h
    | callListFiles n => intro h; exact ih h
    | callListStatuses s => intro h; exact ih h
    | createStatus s st sr => intro h; exact ih h

lemma wellWaited_append :
    ∀ (xs : List ClaAct) (b : Bool) (ys : List ClaAct),
      wellWaited b xs = true → wellWaited false ys = true →
      wellWaited b (xs ++ ys) = true := by
  intro xs
  induction xs with
  | nil =>
    intro b ys _ hy
    cases b
    · exact hy
    · exact wellWaited_true_of_false ys hy
  | cons a rest ih =>
    intro b ys hx hy
    cases a with
    | waitReady => exact ih true ys hx hy
    | readAllowlist u =>
      have hb : b = true := by
        cases b
        · exact absurd hx Bool.false_ne_true
        · rfl
      subst hb
      have hx' : wellWaited true rest = true := by simpa using hx
      have := ih true ys hx' hy
      simpa using this
    | callGetPR n => exact ih b ys hx hy
    | callListFiles n => exact ih b ys hx hy
    | callListStatuses s => exact ih b ys hx hy
    | createStatus s st sr => exact ih b ys hx hy

/-- The invariant carried through `CLAChecker.Do`: every state string handed to
`postStatus` is one the switch accepts (its `RepoStatus` build succeeds), the
outcome is never the panic case, and every allowlist read is preceded by a wait
on the readiness channel. -/
def ClaInv (cfg : ClaCfg) (r : List ClaAct × List Int × Outcome) : Prop :=
  ((postStateArgs r.1).all (fun st => (mkRepoStatus cfg.claURL st).isSome) = true)
  ∧ isPanicked r.2.2 = false
  ∧ ∀ b, wellWaited b r.1 = true

lemma mkRepoStatus_isSome_ite (claURL : String) (c : Bool) :
    (mkRepoStatus claURL (if c then "unnecessary" else "success")).isSome = true := by
  cases c
  · rfl
  · rfl

lemma postStatus_not_unknown (cfg : ClaCfg) (api : ClaAPI) (sha st m : String)
    (hst : (mkRepoStatus cfg.claURL st).isSome = true) :
    ¬ (postStatus cfg api sha st = PostResult.unknownState m) := by
  unfold postStatus
  cases hmk : mkRepoStatus cfg.claURL st with
  | none => rw [hmk] at hst; simp at hst
  | some sr =>
    show ¬ ((match api.createStatus sha sr with
      | Except.error e => PostResult.postErr e sr
      | Except.ok id => PostResult.posted id sr) = PostResult.unknownState m)
    cases hcr : api.createStatus sha sr with
    | error e => simp
    | ok id => simp

lemma claDoOne_invariants (cfg : ClaCfg) (api : ClaAPI) (cache : List Int)
    (gh : Issue) : ClaInv cfg (claDoOne cfg api cache gh) := by
  unfold claDoOne
  repeat' split
  all_goals try dsimp only
  repeat' split
  all_goals first
    | exact ⟨rfl, rfl, fun b => rfl⟩
    | (exfalso
       apply postStatus_not_unknown cfg api _ "failure" _ rfl
       assumption)
    | (exfalso
       apply postStatus_not_unknown cfg api _ _ _
         (mkRepoStatus_isSome_ite cfg.claURL _)
       assumption)

lemma postStateArgs_append (xs ys : List ClaAct) :
    postStateArgs (xs ++ ys) = postStateArgs xs ++ postStateArgs ys := by
  simp [postStateArgs]

lemma claDo_invariants (cfg : ClaCfg) (api : ClaAPI) :
    ∀ (issues : List Issue) (cache : List Int),
      ClaInv cfg (claDo cfg api cache issues) := by
  intro issues
  induction issues with
  | nil => intro cache; exact ⟨rfl, rfl, fun b => rfl⟩
  | cons gh rest ih =>
    intro cache
    obtain ⟨h1, h2, h3⟩ := claDoOne_invariants cfg api cache gh
    unfold claDo
    dsimp only
    split
    · obtain ⟨g1, g2, g3⟩ := ih (claDoOne cfg api cache gh).2.1
      refine ⟨?_, g2, ?_⟩
      · rw [postStateArgs_append, List.all_append, h1, g1]
        rfl
      · intro b
        exact wellWaited_append _ b _ (h3 b) (g3 false)
    · exact ⟨h1, h2, h3⟩

/-- Claim C10: the panic branch of `CLAChecker.postStatus` is unreachable from
`CLAChecker.Do`: every state string `Do` passes to `postStatus` is accepted by
the status-building switch (`mkRepoStatus` returns `some`), and consequently no
run of `Do` ends in the panicking outcome, for every configuration, API
behaviour, cache and issue list. -/
theorem claim_C10 (cfg : ClaCfg) (api : ClaAPI) (cache : List Int)
    (issues : List Issue) :
    (postStateArgs (claDo cfg api cache issues).1).all
      (fun st => (mkRepoStatus cfg.claURL st).isSome) = true
    ∧ isPanicked (claDo cfg api cache issues).2.2 = false :=
  ⟨(claDo_invariants cfg api issues cache).1,
   (claDo_invariants cfg api issues cache).2.1⟩

/-! ## Contributor refresh loop: `CLAChecker.loadContributors` -/

/-- Events of the refresh loop in `CLAChecker.loadContributors`: logging a
fetch error, storing a freshly built contributor map under the mutex, and
signalling the one-time readiness channel. -/
inductive FetchEvent
  | logFetchErr (e : String)
  | store (contributors : List String)
  | signalReady
deriving DecidableEq

/-- Models `CLAChecker.loadContributors` over the finite sequence of fetch
results observed until context cancellation, with the `sentContributors` flag
as state: a failed fetch is logged and skipped; a successful fetch stores the
new map and, only when the flag is still unset, signals the readiness channel
once and sets the flag. -/
def loadContributorsTrace :
    List (Except String (List String)) → Bool → List FetchEvent
  | [], _ => []
  | Except.error e :: rest, sent =>
    FetchEvent.logFetchErr e :: loadContributorsTrace rest sent
  | Except.ok cs :: rest, sent =>
    FetchEvent.store cs ::
      (if sent then loadContributorsTrace rest true
       else FetchEvent.signalReady :: loadContributorsTrace rest true)

/-- Number of readiness signals in a refresh-loop trace. -/
def countReady : List FetchEvent → Nat
  | [] => 0
  | FetchEvent.signalReady :: tr => countReady tr + 1
  | _ :: tr => countReady tr

/-- Whether a fetch attempt succeeded. -/
def isOkFetch : Except String (List String) → Bool
  | Except.ok _ => true
  | Except.error _ => false

lemma countReady_sent :
    ∀ results, countReady (loadContributorsTrace results true) = 0 := by
  intro results
  induction results with
  | nil => rfl
  | cons r rest ih =>
    cases r with
    | error e =>
      simpa [loadContributorsTrace, countReady] using ih
    | ok cs =>
      simpa [loadContributorsTrace, countReady] using ih

lemma countReady_trace :
    ∀ results, countReady (loadContributorsTrace results false)
      = if results.any isOkFetch then 1 else 0 := by
  intro results
  induction results with
  | nil => rfl
  | cons r rest ih =>
    cases r with
    | error e =>
      simpa [loadContributorsTrace, countReady, List.any_cons, isOkFetch] using ih
    | ok cs =>
      simp [loadContributorsTrace, countReady, List.any_cons, isOkFetch,
        countReady_sent rest]

/-- Claim C9: the contributor-refresh loop signals the one-time readiness event
exactly once — on the first successful allowlist load, and never again on later
refreshes (zero times if no load ever succeeds) — and `CLAChecker.Do` blocks on
that event before its first allowlist read for any PR: in every trace of
`claDo`, each `readAllowlist` act is preceded by a `waitReady` act. -/
theorem claim_C9 (results : List (Except String (List String)))
    (cfg : ClaCfg) (api : ClaAPI) (cache : List Int) (issues : List Issue) :
    countReady (loadContributorsTrace results false)
      = (if results.any isOkFetch then 1 else 0)
    ∧ wellWaited false (claDo cfg api cache issues).1 = true :=
  ⟨countReady_trace results, (claDo_invariants cfg api issues cache).2.2 false⟩
